import Mathlib

/-!
Shallow embedding of `FindMotif.py` (class `FindMotif`): the PSSM builder
(`__init__`, `MakePSSM`, `_GetInformational`), the FastA contig reader
(`ReadContigs`) and the genome scanner (`AnalyzeSequences`).

Python strings are modelled as `List Char` (sequences of code points),
Python dicts as functions into `Option` (a `none` result models a missing
key, i.e. a `KeyError` on access), and raising code as `Except String`
with the Python exception class name as the error payload.  Floating point
arithmetic is modelled exactly: the scanner and sorter are generic over a
`LinearOrderedField R`, and the concrete model built by `MakePSSM` is read
at `R := ℝ` with `Real.log` for `math.log` and `Real.logb 2` for
`math.log2`.
-/

namespace FindMotif

/-! ### Python string helpers -/

/-- Python `line.strip()`: remove leading and trailing whitespace from a
line (modelled on lists of characters). -/
def pyStrip (l : List Char) : List Char :=
  ((l.dropWhile Char.isWhitespace).reverse.dropWhile Char.isWhitespace).reverse

/-- Python `line.upper()` (the inputs of interest are ASCII letters). -/
def pyUpper (l : List Char) : List Char :=
  l.map Char.toUpper

/-! ### `ReadContigs` (FindMotif.py lines 108-154)

```
headers = []
sequences = []
sequence = ''
for line in f:
    line = line.strip()
    if line.startswith('>'):
        headers.append(line)
        if sequence:
            sequences.append(sequence)
            total_len += len(sequence)
            sequence = None
    else:
        sequence += line.upper()
sequences.append(sequence)          # Process the last sequence
total_len += len(sequence)
```

The running `sequence` variable is either a Python string (`some s`) or
`None` (`none`); note the source sets it to `None` after flushing a
record, so a later `sequence += line.upper()` raises `TypeError`, and the
final `total_len += len(sequence)` also raises `TypeError` when
`sequence` is `None`.  `total_len` itself only feeds a progress print and
is not modelled beyond its `len(None)` failure. -/

structure ContigState where
  headers : List (List Char)
  sequences : List (List Char)
  sequence : Option (List Char)
  deriving DecidableEq

/-- One iteration of the `for line in f` loop of `ReadContigs`. -/
def readContigLine (st : ContigState) (raw : List Char) : Except String ContigState :=
  let line := pyStrip raw
  if line.head? = some '>' then
    let headers' := st.headers ++ [line]
    match st.sequence with
    | some s =>
      if s.isEmpty then
        Except.ok ⟨headers', st.sequences, some s⟩
      else
        Except.ok ⟨headers', st.sequences ++ [s], none⟩
    | none => Except.ok ⟨headers', st.sequences, none⟩
  else
    match st.sequence with
    | some s => Except.ok ⟨st.headers, st.sequences, some (s ++ pyUpper line)⟩
    | none => Except.error "TypeError"

/-- `ReadContigs`, applied to the stripped lines of the sequence file.
Returns the parallel `headers` and `sequences` lists. -/
def readContigs (lines : List (List Char)) :
    Except String (List (List Char) × List (List Char)) := do
  let st ← lines.foldlM readContigLine ⟨[], [], some []⟩
  match st.sequence with
  | some s => Except.ok (st.headers, st.sequences ++ [s])
  | none => Except.error "TypeError"

/-! ### `AnalyzeSequences` (FindMotif.py lines 250-333)

The scanner is generic over a `LinearOrderedField R` (Python floats,
modelled exactly); the dictionaries `self.log_q` and `self.log_p` are
`Option`-valued functions, a `none` modelling a missing key whose access
raises `KeyError`. -/

/-- A recorded hit: the tuple
`(region_score, headers[seq_num], start_position, region)` appended to
the `scores` list (Python strings as `List Char`). -/
abbrev PyHit (R : Type) := R × List Char × Nat × List Char

variable {R : Type} [LinearOrderedField R]

/-- The inner scoring loop of `AnalyzeSequences`
(`for position in self.informational: ... region_score += self.log_q[(symbol, position)] - self.log_p[symbol]`),
threading the running `region_score`.  `region[position]` out of range
raises `IndexError`; a missing dictionary key raises `KeyError` (the
`log_q` lookup is evaluated first, as in the source). -/
def scoreRegion (log_q : Char × Nat → Option R) (log_p : Char → Option R)
    (region : List Char) : List Nat → R → Except String R
  | [], region_score => Except.ok region_score
  | position :: rest, region_score =>
    match region.get? position with
    | none => Except.error "IndexError"
    | some symbol =>
      match log_q (symbol, position), log_p symbol with
      | some lq, some lp => scoreRegion log_q log_p region rest (region_score + (lq - lp))
      | none, _ => Except.error "KeyError"
      | some _, none => Except.error "KeyError"

/-- The recording step
`if region_score > threshold: scores.append((region_score, headers[seq_num], start_position, region))`;
`headers[seq_num]` raises `IndexError` when out of range (only evaluated
when a hit is recorded, as in the source). -/
def recordHit (headers : List (List Char)) (threshold : R) (seq_num start_position : Nat)
    (region : List Char) (region_score : R) : Except String (List (PyHit R)) :=
  if threshold < region_score then
    match headers.get? seq_num with
    | some h => Except.ok [(region_score, h, start_position, region)]
    | none => Except.error "IndexError"
  else
    Except.ok []

/-- The per-contig loop
`for start_position in range(len(sequence) - self.motif_len): ...`,
including the test-mode break
`if (start_position > 50000) or (seq_num > 100): break` placed after the
recording step.  `fuel` counts the iterations left, so the call with
`start_position := 0` and `fuel := len(sequence) - motif_len` runs the
Python loop exactly; the hits of the contig are returned in recording
order. -/
def scanFrom (log_q : Char × Nat → Option R) (log_p : Char → Option R)
    (informational : List Nat) (motif_len : Nat) (threshold : R)
    (headers : List (List Char)) (seq_num : Nat) (sequence : List Char) :
    Nat → Nat → Except String (List (PyHit R))
  | _, 0 => Except.ok []
  | start_position, fuel + 1 =>
    let region := (sequence.drop start_position).take motif_len
    match scoreRegion log_q log_p region informational 0 with
    | Except.error e => Except.error e
    | Except.ok region_score =>
      match recordHit headers threshold seq_num start_position region region_score with
      | Except.error e => Except.error e
      | Except.ok new =>
        if start_position > 50000 ∨ seq_num > 100 then
          Except.ok new
        else
          match scanFrom log_q log_p informational motif_len threshold headers seq_num
              sequence (start_position + 1) fuel with
          | Except.error e => Except.error e
          | Except.ok rest => Except.ok (new ++ rest)

/-- Python `a < b` on a tuple component carrying a linear order (the
scores and the integer start positions). -/
def boolLt {α : Type} [LinearOrder α] (a b : α) : Bool :=
  a < b

/-- Python `a < b` on strings and lists: lexicographic comparison of the
element sequences (shorter prefixes compare smaller). -/
def listLtB {α : Type} [LinearOrder α] : List α → List α → Bool
  | [], [] => false
  | [], _ :: _ => true
  | _ :: _, [] => false
  | a :: as, b :: bs =>
    if a < b then true
    else if b < a then false
    else listLtB as bs

/-- One lexicographic level of Python tuple comparison: compare the first
components with `lt1`, fall through to `le2` on the rest only on a tie. -/
def lexLtStep {α β : Type} (lt1 : α → α → Bool) (le2 : β → β → Bool) (a b : α × β) : Bool :=
  if lt1 a.1 b.1 then true
  else if lt1 b.1 a.1 then false
  else le2 a.2 b.2

/-- Python `a <= b` on the 4-tuples stored in `scores`: score, then
header, then start position, then region text. -/
def pyHitLe (a b : PyHit R) : Bool :=
  lexLtStep boolLt (lexLtStep listLtB (lexLtStep boolLt (fun x y => !(listLtB y x)))) a b

/-- Insert `x` into a list kept in non-increasing order: `x` goes in
front of the first element that is `<=` it. -/
def insertDesc {α : Type} (le : α → α → Bool) (x : α) : List α → List α
  | [] => [x]
  | y :: ys => if le y x then x :: y :: ys else y :: insertDesc le x ys

/-- A sort into non-increasing order with respect to `le`; models
`scores.sort(reverse=True)` (on these tuples the order is total, and
elements comparing equal are identical, so any correct descending sort
has the same result). -/
def sortDesc {α : Type} (le : α → α → Bool) : List α → List α
  | [] => []
  | x :: xs => insertDesc le x (sortDesc le xs)

/-- `scores.sort(reverse=True)` followed by `del scores[number_of_hits:]`. -/
def sortTruncate (scores : List (PyHit R)) (number_of_hits : Nat) : List (PyHit R) :=
  (sortDesc pyHitLe scores).take number_of_hits

/-- `AnalyzeSequences`, given the model tables and the contigs
(`ReadContigs` is modelled separately; `headers, sequences` are its
results).  Enumerates the sequences, scans each one, sorts the collected
scores in reverse order and truncates to `number_of_hits`. -/
def analyzeSequences (log_q : Char × Nat → Option R) (log_p : Char → Option R)
    (informational : List Nat) (motif_len : Nat) (threshold : R)
    (number_of_hits : Nat) (headers : List (List Char)) (sequences : List (List Char)) :
    Except String (List (PyHit R)) := do
  let scores ← sequences.enum.foldlM
    (fun scores e =>
      (scanFrom log_q log_p informational motif_len threshold headers e.1 e.2
          0 (e.2.length - motif_len)).map
        (fun new => scores ++ new))
    ([] : List (PyHit R))
  pure (sortTruncate scores number_of_hits)

/-! ### `__init__`, `MakePSSM` and `_GetInformational`
(FindMotif.py lines 24-64, 156-247 and 335-362)

The `FindMotif` object state.  `bg_freq` is an insertion-ordered dict,
modelled as an association list; its key list is the alphabet iterated by
`self.bg_freq.keys()`.  `log_q` and `q` are dicts keyed by
(symbol, position) pairs, `log_p` a dict keyed by symbol. -/

structure FMState (R : Type) where
  motif_input : String
  sequence_file : String
  bg_freq : List (Char × R)
  log_p : Char → Option R
  log_q : Char × Nat → Option R
  q : Char × Nat → Option R
  N : Nat
  motif_len : Nat
  motif_sequences : List (List Char)
  informational : List Nat

/-- The default background frequency table of `__init__`
(`'A': 0.33264, 'T': 0.33264, 'G': 0.16736, 'C': 0.16736`, in dict
insertion order). -/
def defaultBgFreq (R : Type) [LinearOrderedField R] : List (Char × R) :=
  [('A', 33264 / 100000), ('T', 33264 / 100000), ('G', 16736 / 100000), ('C', 16736 / 100000)]

/-- The key list of the default background table. -/
def defaultAlphabet : List Char :=
  ['A', 'T', 'G', 'C']

/-- Python truthiness of an optional string argument (`None` and `''` are
falsy). -/
def pyTruthyStr (o : Option String) : Bool :=
  match o with
  | none => false
  | some s => !(s = "")

/-- Python truthiness of an optional dict argument (`None` and `{}` are
falsy). -/
def pyTruthyDict {α : Type} (o : Option α) (isEmpty : α → Bool) : Bool :=
  match o with
  | none => false
  | some d => !(isEmpty d)

/-- `__init__(self, motif_input=None, sequence_file=None, bg_freq=None)`.
The source only assigns `self.bg_freq` inside `if not bg_freq:`; when a
truthy `bg_freq` dict is passed the attribute is never set, and the
`self.log_p` dict comprehension on the next line raises
`AttributeError`.  `self.N = self.motif_len = 0`, and
`self.motif_sequences = self.informational = []` (the two names aliasing
one list is harmless: `GetMotif` rebinds `motif_sequences` before either
is mutated). -/
def initFindMotif (log : R → R) (motif_input sequence_file : Option String)
    (bg_freq : Option (List (Char × R))) : Except String (FMState R) :=
  let mi := if pyTruthyStr motif_input then motif_input.getD "" else "71NpNtSm.txt"
  let sf := if pyTruthyStr sequence_file then sequence_file.getD "" else "AnabaenaChromosome.nt"
  let self_bg : Option (List (Char × R)) :=
    if pyTruthyDict bg_freq List.isEmpty then none else some (defaultBgFreq R)
  match self_bg with
  | none => Except.error "AttributeError"
  | some bg =>
    Except.ok
      ⟨mi, sf, bg, fun symbol => (bg.lookup symbol).map log,
        fun _ => none, fun _ => none, 0, 0, [], []⟩

/-- One motif's contribution to the raw counts dict
(`for position, symbol in enumerate(motif): counts[(symbol, position)] += 1`,
with the key created at 1 when absent; the dict is modelled as a total
function defaulting to 0, which also models the later
`counts.setdefault((symbol, position), 0)`). -/
def bumpCount (c : Char × Nat → Nat) (e : Nat × Char) : Char × Nat → Nat :=
  fun key => if key = (e.2, e.1) then c key + 1 else c key

def addMotifCounts (counts : Char × Nat → Nat) (motif : List Char) : Char × Nat → Nat :=
  motif.enum.foldl bumpCount counts

/-- The raw counts dict after `for motif in self.motif_sequences: ...`. -/
def rawCounts (motifs : List (List Char)) : Char × Nat → Nat :=
  motifs.foldl addMotifCounts (fun _ => 0)

/-- The pseudocount-adjusted frequency
`(cur_count + B*self.bg_freq[symbol]) / (self.N + B)` stored in
`self.q[(symbol, position)]` (and, under `log`, in `self.log_q`). -/
def qValue (counts : Char × Nat → Nat) (bg : Char → R) (N : Nat) (B : R)
    (symbol : Char) (position : Nat) : R :=
  ((counts (symbol, position) : R) + B * bg symbol) / ((N : R) + B)

/-- The inner loop of `_GetInformational` at one position, threading the
running `information` value:
`for symbol in self.bg_freq.keys(): information += self.q[symbol, position] * log2(self.q[symbol, position])`.
A missing `self.q` key raises `KeyError`. -/
def infoLoop (log2 : R → R) (q : Char × Nat → Option R) (position : Nat) :
    List Char → R → Except String R
  | [], information => Except.ok information
  | symbol :: symbols, information =>
    match q (symbol, position) with
    | some v => infoLoop log2 q position symbols (information + v * log2 v)
    | none => Except.error "KeyError"

/-- The `information` value of `_GetInformational` at one position:
`information = 2` followed by the symbol loop. -/
def informationAt (log2 : R → R) (alphabet : List Char)
    (q : Char × Nat → Option R) (position : Nat) : Except String R :=
  infoLoop log2 q position alphabet 2

/-- The outer position loop of `_GetInformational`, appending each
position whose `information` exceeds the 1.25 threshold to the running
list. -/
def getInfoLoop (log2 : R → R) (alphabet : List Char) (q : Char × Nat → Option R) :
    List Nat → List Nat → Except String (List Nat)
  | [], acc => Except.ok acc
  | position :: positions, acc =>
    match informationAt log2 alphabet q position with
    | Except.error e => Except.error e
    | Except.ok information =>
      if (5 / 4 : R) < information then
        getInfoLoop log2 alphabet q positions (acc ++ [position])
      else
        getInfoLoop log2 alphabet q positions acc

/-- `_GetInformational`: for every position in `range(self.motif_len)`,
append the position to `self.informational` when `information > 1.25`.
Note the source appends to the *existing* `self.informational` list (it
initializes `self.goodlist` instead of clearing `informational`), so the
prior contents are kept. -/
def getInformational (log2 : R → R) (alphabet : List Char)
    (q : Char × Nat → Option R) (motif_len : Nat) (informational : List Nat) :
    Except String (List Nat) :=
  getInfoLoop log2 alphabet q (List.range motif_len) informational

/-- `MakePSSM(self, B)`, for a numeric pseudocount constant `B`.  (The
`B == 'SQRTN'` string policy resolves `B` to `sqrt(self.N)` before this
point, and the automatic `GetMotif()` call triggers only when
`self.motif_sequences` is empty; the claims below concern states whose
training set is already loaded, with `N` and `motif_len` as `GetMotif`
sets them.)  The two dict-filling loops write `self.log_q[(s, p)]` and
`self.q[(s, p)]` exactly once for every `s` in `self.bg_freq.keys()` and
`p` in `range(self.motif_len)`, leaving other keys untouched, which the
pointwise update below reproduces.  `_GetInformational` is called at the
end, as in the source. -/
def makePSSM (log log2 : R → R) (st : FMState R) (B : R) : Except String (FMState R) :=
  let alphabet := st.bg_freq.map Prod.fst
  let bgv : Char → R := fun symbol => (st.bg_freq.lookup symbol).getD 0
  let counts := rawCounts st.motif_sequences
  let log_q' : Char × Nat → Option R := fun sp =>
    if sp.1 ∈ alphabet ∧ sp.2 < st.motif_len then
      some (log (qValue counts bgv st.N B sp.1 sp.2))
    else st.log_q sp
  let q' : Char × Nat → Option R := fun sp =>
    if sp.1 ∈ alphabet ∧ sp.2 < st.motif_len then
      some (qValue counts bgv st.N B sp.1 sp.2)
    else st.q sp
  (getInformational log2 alphabet q' st.motif_len st.informational).map
    (fun informational' =>
      ⟨st.motif_input, st.sequence_file, st.bg_freq, st.log_p, log_q', q',
        st.N, st.motif_len, st.motif_sequences, informational'⟩)

/-- The value computed by the inner loop of `_GetInformational` at one
position, written as a closed sum (proved equal to the `informationAt`
fold in `informationAt_ok_sum` below): `2 + Σ_s q[s,p] * log2(q[s,p])`
over the dict keys. -/
def infoValue (log2 : R → R) (alphabet : List Char)
    (q : Char × Nat → Option R) (position : Nat) : R :=
  2 + (alphabet.map
    (fun s => ((q (s, position)).getD 0) * log2 ((q (s, position)).getD 0))).sum

/-- A concrete training set for exercising `MakePSSM`: 32 aligned motifs
of width 1, with position 0 reading `A` 28 times, `T` twice, `G` once and
`C` once (so that with `B = 0` the adjusted frequencies are the exact
dyadic numbers 7/8, 1/16, 1/32, 1/32). -/
def motifsC8 : List (List Char) :=
  List.replicate 28 ['A'] ++ List.replicate 2 ['T'] ++ [['G'], ['C']]

end FindMotif

/-! A first sanity theorem; the claim theorems follow after all
definitions. -/

/-- C1: Applying the Contig Reader to the two-record file
`>h1\nACGT\n>h2\nTTTT\n` does not return headers and sequences at all: on
reaching the line `TTTT` the accumulator `sequence` is `None` (it was set
to `None` when `ACGT` was flushed at the `>h2` header line), so
`sequence += line.upper()` raises `TypeError`.  (Had it not raised, the
headers would moreover have kept their `>` marker.)  This contradicts the
claimed round trip. -/
theorem c1_readContigs_two_record_crash :
    FindMotif.readContigs
      [['>', 'h', '1'], ['A', 'C', 'G', 'T'], ['>', 'h', '2'], ['T', 'T', 'T', 'T']] =
      Except.error "TypeError" := by
  rfl

/-- C9: Constructing the component with a caller-supplied background
table does not succeed: `__init__` assigns `self.bg_freq` only in the
`if not bg_freq:` branch, so with a truthy `bg_freq` argument the
attribute is never set and the `self.log_p` comprehension raises
`AttributeError`.  Evaluated here at the uniform 4-symbol table. -/
theorem c9_supplied_bg_attribute_error :
    FindMotif.initFindMotif (R := ℝ) Real.log none none
      (some [('A', 1 / 4), ('C', 1 / 4), ('G', 1 / 4), ('T', 1 / 4)]) =
      Except.error "AttributeError" := by
  rfl

/-- C3: The scanner does not consider the window at offset
`contig length - L`: the loop is `range(len(sequence) - self.motif_len)`,
which stops one short.  On a contig of length exactly `L` (here `L = 1`,
contig `"A"`) the claim predicts a single window at offset 0 — which
would score `0 > -1` and be recorded — but the code scans no window at
all and returns an empty hit list. -/
theorem c3_last_window_skipped :
    FindMotif.analyzeSequences (R := ℚ)
      (fun sp => if sp = ('A', 0) then some 0 else none)
      (fun c => if c = 'A' then some 0 else none)
      [0] 1 (-1) 10 [['>', 'h', '1']] [['A']] =
      Except.ok [] := by
  rfl

/-- C7 (counterexample): scoring a window that contains, at the
informational position 0, the symbol `N` absent from the model's alphabet
raises `KeyError` (the `self.log_q[(symbol, position)]` lookup fails),
contradicting the claim that scoring such a window does not raise. -/
theorem c7_keyerror_counterexample :
    FindMotif.scoreRegion (R := ℚ)
      (fun sp => if sp = ('A', 0) then some 0 else none)
      (fun c => if c = 'A' then some 0 else none)
      ['N'] [0] 0 =
      Except.error "KeyError" := by
  rfl

/-- C4 (counterexample): on the claim's score multiset `[5, 9, 9, 2]`
with the two score-9 hits differing in header (`hA` at offset 3, `hB` at
offset 1), the code's `sort(reverse=True)` puts `hB` before `hA` — equal
scores are ordered by the *reversed* (descending) order of the remaining
tuple fields, not by their natural ascending order as claimed. -/
theorem c4_tie_order_cex :
    FindMotif.sortTruncate (R := ℚ)
        [(5, ['h'], 0, ['A']), (9, ['h', 'A'], 3, ['A', 'A']),
          (9, ['h', 'B'], 1, ['A', 'A']), (2, ['h'], 2, ['B'])] 2 =
        [(9, ['h', 'B'], 1, ['A', 'A']), (9, ['h', 'A'], 3, ['A', 'A'])] ∧
      FindMotif.sortTruncate (R := ℚ)
        [(5, ['h'], 0, ['A']), (9, ['h', 'A'], 3, ['A', 'A']),
          (9, ['h', 'B'], 1, ['A', 'A']), (2, ['h'], 2, ['B'])] 2 ≠
        [(9, ['h', 'A'], 3, ['A', 'A']), (9, ['h', 'B'], 1, ['A', 'A'])] := by
  exact ⟨by rfl, by decide⟩

namespace FindMotif

section ScannerLemmas

variable {R : Type} [LinearOrderedField R]

/-- When every informational position finds its symbol in the window and
both dictionaries, the scoring loop succeeds and accumulates exactly the
sum of `log_q - log_p` over the informational positions. -/
theorem scoreRegion_ok_sum (log_q : Char × Nat → Option R) (log_p : Char → Option R)
    (region : List Char) (sym : Nat → Char) (lqv lpv : Nat → R)
    (informational : List Nat) :
    ∀ acc : R,
      (∀ p ∈ informational, region.get? p = some (sym p)) →
      (∀ p ∈ informational, log_q (sym p, p) = some (lqv p)) →
      (∀ p ∈ informational, log_p (sym p) = some (lpv p)) →
      scoreRegion log_q log_p region informational acc =
        Except.ok (acc + (informational.map (fun p => lqv p - lpv p)).sum) := by
  induction informational with
  | nil =>
    intro acc _ _ _
    simp [scoreRegion]
  | cons p rest ih =>
    intro acc h1 h2 h3
    have e1 : region.get? p = some (sym p) := h1 p (List.mem_cons_self p rest)
    have e2 : log_q (sym p, p) = some (lqv p) := h2 p (List.mem_cons_self p rest)
    have e3 : log_p (sym p) = some (lpv p) := h3 p (List.mem_cons_self p rest)
    have e1' : region[p]? = some (sym p) := by
      rw [← List.get?_eq_getElem?]
      exact e1
    have step :
        scoreRegion log_q log_p region (p :: rest) acc =
          scoreRegion log_q log_p region rest (acc + (lqv p - lpv p)) := by
      simp [scoreRegion, e1', e2, e3]
    rw [step,
      ih (acc + (lqv p - lpv p))
        (fun x hx => h1 x (List.mem_cons_of_mem p hx))
        (fun x hx => h2 x (List.mem_cons_of_mem p hx))
        (fun x hx => h3 x (List.mem_cons_of_mem p hx))]
    simp [add_assoc]

end ScannerLemmas

end FindMotif

namespace FindMotif

section ScannerLemmas2

variable {R : Type} [LinearOrderedField R]

/-- If the window has, at some informational position, a symbol whose
`log_q` key is missing — and no informational position is out of the
window's range — then the scoring loop raises `KeyError` (whatever the
accumulator). -/
theorem scoreRegion_keyerror (log_q : Char × Nat → Option R) (log_p : Char → Option R)
    (region : List Char) (informational : List Nat) :
    ∀ acc : R,
      (∀ p ∈ informational, ∃ c, region.get? p = some c) →
      (∃ p ∈ informational, ∃ c, region.get? p = some c ∧ log_q (c, p) = none) →
      scoreRegion log_q log_p region informational acc = Except.error "KeyError" := by
  induction informational with
  | nil =>
    intro acc _ hbad
    obtain ⟨p, hp, _⟩ := hbad
    exact absurd hp (List.not_mem_nil p)
  | cons p rest ih =>
    intro acc hidx hbad
    obtain ⟨c0, hc0⟩ := hidx p (List.mem_cons_self p rest)
    have hc0' : region[p]? = some c0 := by
      rw [← List.get?_eq_getElem?]
      exact hc0
    cases hq : log_q (c0, p) with
    | none => simp [scoreRegion, hc0', hq]
    | some lq =>
      cases hp : log_p c0 with
      | none => simp [scoreRegion, hc0', hq, hp]
      | some lp =>
        have step :
            scoreRegion log_q log_p region (p :: rest) acc =
              scoreRegion log_q log_p region rest (acc + (lq - lp)) := by
          simp [scoreRegion, hc0', hq, hp]
        rw [step]
        apply ih
        · exact fun x hx => hidx x (List.mem_cons_of_mem p hx)
        · obtain ⟨pb, hpb, cb, hcb, hnone⟩ := hbad
          rcases List.mem_cons.mp hpb with h | h
          · subst h
            rw [hc0] at hcb
            injection hcb with e
            subst e
            rw [hq] at hnone
            exact absurd hnone (by simp)
          · exact ⟨pb, h, cb, hcb, hnone⟩

/-- The recording step returns either no hit or exactly the single hit
tuple for the current offset. -/
theorem recordHit_shape (headers : List (List Char)) (threshold : R)
    (seq_num start_position : Nat) (region : List Char) (region_score : R)
    (new : List (PyHit R))
    (h : recordHit headers threshold seq_num start_position region region_score =
      Except.ok new) :
    new = [] ∨ ∃ hd, new = [(region_score, hd, start_position, region)] := by
  unfold recordHit at h
  by_cases ht : threshold < region_score
  · rw [if_pos ht] at h
    cases hh : headers.get? seq_num with
    | none => rw [hh] at h; exact absurd h (by simp)
    | some hd =>
      rw [hh] at h
      injection h with h
      exact Or.inr ⟨hd, h.symm⟩
  · rw [if_neg ht] at h
    injection h with h
    exact Or.inl h.symm

/-- Bounds on the start offsets of the hits returned by the per-contig
loop when entered at offset `i`: every hit starts in `[i, max i 50001]`,
and for a contig index past 100 the loop does at most one iteration. -/
theorem scanFrom_hits_bounds (log_q : Char × Nat → Option R) (log_p : Char → Option R)
    (informational : List Nat) (motif_len : Nat) (threshold : R)
    (headers : List (List Char)) (seq_num : Nat) (sequence : List Char) :
    ∀ (fuel i : Nat) (l : List (PyHit R)),
      scanFrom log_q log_p informational motif_len threshold headers seq_num sequence i fuel =
        Except.ok l →
      (∀ hit ∈ l, i ≤ hit.2.2.1 ∧ hit.2.2.1 ≤ max i 50001) ∧
        (100 < seq_num → l.length ≤ 1 ∧ ∀ hit ∈ l, hit.2.2.1 = i) := by
  intro fuel
  induction fuel with
  | zero =>
    intro i l h
    simp only [scanFrom] at h
    injection h with h
    subst h
    simp
  | succ fuel ih =>
    intro i l h
    simp only [scanFrom] at h
    split at h
    · simp at h
    · rename_i region_score hs
      split at h
      · simp at h
      · rename_i new hr
        have hshape := recordHit_shape _ _ _ _ _ _ _ hr
        have hnew : ∀ hit ∈ new, hit.2.2.1 = i := by
          rcases hshape with rfl | ⟨hd, rfl⟩
          · intro hit hm
            exact absurd hm (List.not_mem_nil hit)
          · intro hit hm
            rcases List.mem_singleton.mp hm with rfl
            rfl
        have hnewlen : new.length ≤ 1 := by
          rcases hshape with rfl | ⟨hd, rfl⟩ <;> simp
        split at h
        · rename_i hbrk
          injection h with h
          subst h
          refine ⟨fun hit hm => ⟨le_of_eq (hnew hit hm).symm, ?_⟩, fun _ => ⟨hnewlen, hnew⟩⟩
          rw [hnew hit hm]
          exact le_max_left i 50001
        · rename_i hbrk
          push_neg at hbrk
          obtain ⟨hi, hsn⟩ := hbrk
          split at h
          · simp at h
          · rename_i rest hrest
            injection h with h
            subst h
            obtain ⟨ihb, _⟩ := ih (i + 1) rest hrest
            constructor
            · intro hit hm
              rcases List.mem_append.mp hm with hm | hm
              · refine ⟨le_of_eq (hnew hit hm).symm, ?_⟩
                rw [hnew hit hm]
                exact le_max_left i 50001
              · obtain ⟨h1, h2⟩ := ihb hit hm
                constructor
                · omega
                · have hmx : max (i + 1) 50001 = 50001 := by omega
                  rw [hmx] at h2
                  have hx : i ≤ max i 50001 := le_max_left i 50001
                  have hy : (50001 : Nat) ≤ max i 50001 := le_max_right i 50001
                  omega
            · intro hcontra
              omega

end ScannerLemmas2

end FindMotif

/-- C2: For every window the scanner considers whose informational
positions all resolve (the symbol is inside the window and has entries in
both dictionaries), the window's score returned by the scoring loop
equals the sum over exactly the informational positions of
`log_q[window[p], p] - log_p[window[p]]` (positions outside
`informational` are never touched), and the recording step records the
hit tuple exactly when this score is strictly greater than the
threshold. -/
theorem c2_window_score_and_record {R : Type} [LinearOrderedField R]
    (log_q : Char × Nat → Option R) (log_p : Char → Option R)
    (informational : List Nat) (region : List Char) (sym : Nat → Char) (lqv lpv : Nat → R)
    (threshold : R) (headers : List (List Char)) (seq_num start_position : Nat)
    (hdr : List Char)
    (h1 : ∀ p ∈ informational, region.get? p = some (sym p))
    (h2 : ∀ p ∈ informational, log_q (sym p, p) = some (lqv p))
    (h3 : ∀ p ∈ informational, log_p (sym p) = some (lpv p))
    (hhdr : headers.get? seq_num = some hdr) :
    FindMotif.scoreRegion log_q log_p region informational 0 =
      Except.ok ((informational.map (fun p => lqv p - lpv p)).sum) ∧
    (FindMotif.recordHit headers threshold seq_num start_position region
        ((informational.map (fun p => lqv p - lpv p)).sum) =
      Except.ok [((informational.map (fun p => lqv p - lpv p)).sum, hdr, start_position, region)] ↔
      threshold < (informational.map (fun p => lqv p - lpv p)).sum) := by
  have hhdr' : headers[seq_num]? = some hdr := by
    rw [← List.get?_eq_getElem?]
    exact hhdr
  constructor
  · have h := FindMotif.scoreRegion_ok_sum log_q log_p region sym lqv lpv informational 0 h1 h2 h3
    simpa using h
  · constructor
    · intro h
      by_contra hlt
      simp [FindMotif.recordHit, hlt] at h
    · intro hlt
      simp [FindMotif.recordHit, hlt, hhdr']

/-- Witness for C2 at a concrete input: one informational position, a
window reading `A` there, `log_q = 3` and `log_p = 1`, so the score is
`3 - 1` and the hit is recorded against threshold 0. -/
theorem c2_witness :
    FindMotif.scoreRegion (R := ℚ)
        (fun sp => if sp = ('A', 0) then some 3 else none)
        (fun c => if c = 'A' then some 1 else none) ['A'] [0] 0 =
      Except.ok ((([0] : List Nat).map (fun _ => (3 : ℚ) - 1)).sum) ∧
    (FindMotif.recordHit [['h']] (0 : ℚ) 0 5 ['A']
        ((([0] : List Nat).map (fun _ => (3 : ℚ) - 1)).sum) =
      Except.ok [((([0] : List Nat).map (fun _ => (3 : ℚ) - 1)).sum, ['h'], 5, ['A'])] ↔
      (0 : ℚ) < (([0] : List Nat).map (fun _ => (3 : ℚ) - 1)).sum) :=
  c2_window_score_and_record
    (fun sp => if sp = ('A', 0) then some 3 else none)
    (fun c => if c = 'A' then some 1 else none)
    [0] ['A'] (fun _ => 'A') (fun _ => 3) (fun _ => 1) 0 [['h']] 0 5 ['h']
    (by decide) (by decide) (by decide) (by decide)

/-- C7 (amended): a window carrying, at an informational position, a
symbol with no `log_q` entry does *not* leave the scan running: the
scoring loop uniformly raises `KeyError` (the policy the claim asks for —
skip the contribution or reject the window without raising — is not
implemented). -/
theorem c7_missing_symbol_keyerror {R : Type} [LinearOrderedField R]
    (log_q : Char × Nat → Option R) (log_p : Char → Option R)
    (region : List Char) (informational : List Nat)
    (hidx : ∀ p ∈ informational, ∃ c, region.get? p = some c)
    (hbad : ∃ p ∈ informational, ∃ c, region.get? p = some c ∧ log_q (c, p) = none) :
    FindMotif.scoreRegion log_q log_p region informational 0 = Except.error "KeyError" :=
  FindMotif.scoreRegion_keyerror log_q log_p region informational 0 hidx hbad

/-- Witness for C7 at a concrete input: the window `Z` with informational
position 0 and a model knowing only `A`. -/
theorem c7_witness :
    FindMotif.scoreRegion (R := ℚ)
      (fun sp => if sp = ('A', 0) then some 0 else none)
      (fun c => if c = 'A' then some 0 else none)
      ['Z'] [0] 0 = Except.error "KeyError" :=
  c7_missing_symbol_keyerror
    (fun sp => if sp = ('A', 0) then some 0 else none)
    (fun c => if c = 'A' then some 0 else none)
    ['Z'] [0]
    (by
      intro p hp
      rw [List.mem_singleton] at hp
      subst hp
      exact ⟨'Z', rfl⟩)
    ⟨0, by decide, 'Z', rfl, rfl⟩

/-- C10: the test-mode break caps every scan: a hit is never recorded at
a start offset greater than 50001 (the loop processes offset 50001, then
breaks), and a contig whose 0-based index exceeds 100 contributes at most
the single window at offset 0. -/
theorem c10_scan_caps {R : Type} [LinearOrderedField R]
    (log_q : Char × Nat → Option R) (log_p : Char → Option R)
    (informational : List Nat) (motif_len : Nat) (threshold : R)
    (headers : List (List Char)) (seq_num : Nat) (sequence : List Char)
    (fuel : Nat) (l : List (FindMotif.PyHit R))
    (h : FindMotif.scanFrom log_q log_p informational motif_len threshold headers seq_num
      sequence 0 fuel = Except.ok l) :
    (∀ hit ∈ l, hit.2.2.1 ≤ 50001) ∧
      (100 < seq_num → l.length ≤ 1 ∧ ∀ hit ∈ l, hit.2.2.1 = 0) := by
  obtain ⟨hb, hc⟩ := FindMotif.scanFrom_hits_bounds log_q log_p informational motif_len
    threshold headers seq_num sequence fuel 0 l h
  refine ⟨fun hit hm => ?_, hc⟩
  have h2 := (hb hit hm).2
  simpa using h2

/-- Witness for C10 at a concrete input: contig index 101, three
nucleotides, window width 1 (and an empty informational set, so the
window scores the accumulator 0 exactly); the loop records the offset-0
window and then breaks. -/
theorem c10_witness :
    (∀ hit ∈ [((0 : ℚ), ['h'], 0, ['A'])], hit.2.2.1 ≤ 50001) ∧
      (100 < 101 → ([((0 : ℚ), ['h'], 0, ['A'])].length ≤ 1 ∧
        ∀ hit ∈ [((0 : ℚ), ['h'], 0, ['A'])], hit.2.2.1 = 0)) :=
  c10_scan_caps
    (fun sp => if sp = ('A', 0) then some 0 else none)
    (fun c => if c = 'A' then some 0 else none)
    [] 1 (-1) (List.replicate 102 ['h']) 101 ['A', 'A', 'A'] 2
    [((0 : ℚ), ['h'], 0, ['A'])] (by rfl)

namespace FindMotif

section SortLemmas

variable {α : Type} [LinearOrder α]

theorem boolLt_iff (a b : α) : boolLt a b = true ↔ a < b := by
  simp [boolLt]

theorem boolLt_irrefl (a : α) : boolLt a a = false := by
  simp [boolLt]

theorem boolLt_trans {a b c : α} (h1 : boolLt a b = true) (h2 : boolLt b c = true) :
    boolLt a c = true := by
  rw [boolLt_iff] at *
  exact lt_trans h1 h2

theorem boolLt_conn (a b : α) : boolLt a b = true ∨ boolLt b a = true ∨ a = b := by
  rcases lt_trichotomy a b with h | h | h
  · exact Or.inl ((boolLt_iff a b).mpr h)
  · exact Or.inr (Or.inr h)
  · exact Or.inr (Or.inl ((boolLt_iff b a).mpr h))

theorem listLtB_irrefl : ∀ l : List α, listLtB l l = false
  | [] => rfl
  | a :: as => by simp [listLtB, lt_irrefl, listLtB_irrefl as]

theorem listLtB_conn : ∀ a b : List α, listLtB a b = true ∨ listLtB b a = true ∨ a = b := by
  intro a
  induction a with
  | nil =>
    intro b
    cases b with
    | nil => exact Or.inr (Or.inr rfl)
    | cons b bs => exact Or.inl rfl
  | cons a as ih =>
    intro b
    cases b with
    | nil => exact Or.inr (Or.inl rfl)
    | cons b bs =>
      rcases lt_trichotomy a b with h | h | h
      · exact Or.inl (by simp [listLtB, h])
      · subst h
        rcases ih bs with h2 | h2 | h2
        · exact Or.inl (by simp [listLtB, lt_irrefl, h2])
        · exact Or.inr (Or.inl (by simp [listLtB, lt_irrefl, h2]))
        · exact Or.inr (Or.inr (by rw [h2]))
      · exact Or.inr (Or.inl (by simp [listLtB, h]))

theorem listLtB_trans : ∀ a b c : List α,
    listLtB a b = true → listLtB b c = true → listLtB a c = true := by
  intro a
  induction a with
  | nil =>
    intro b c h1 h2
    cases b with
    | nil => simp [listLtB] at h1
    | cons b bs =>
      cases c with
      | nil => simp [listLtB] at h2
      | cons c cs => rfl
  | cons a as ih =>
    intro b c h1 h2
    cases b with
    | nil => simp [listLtB] at h1
    | cons b bs =>
      cases c with
      | nil => simp [listLtB] at h2
      | cons c cs =>
        simp only [listLtB] at h1 h2 ⊢
        rcases lt_trichotomy a b with hab | hab | hab
        · rcases lt_trichotomy b c with hbc | hbc | hbc
          · rw [if_pos (lt_trans hab hbc)]
          · subst hbc
            rw [if_pos hab]
          · rw [if_neg (lt_asymm hbc), if_pos hbc] at h2
            cases h2
        · subst hab
          rw [if_neg (lt_irrefl a), if_neg (lt_irrefl a)] at h1
          rcases lt_trichotomy a c with hac | hac | hac
          · rw [if_pos hac]
          · subst hac
            rw [if_neg (lt_irrefl a), if_neg (lt_irrefl a)] at h2
            rw [if_neg (lt_irrefl a), if_neg (lt_irrefl a)]
            exact ih bs cs h1 h2
          · rw [if_neg (lt_asymm hac), if_pos hac] at h2
            cases h2
        · rw [if_neg (lt_asymm hab), if_pos hab] at h1
          cases h1

theorem listLtB_asymm (x y : List α) (h : listLtB x y = true) : listLtB y x = false := by
  cases hb : listLtB y x with
  | false => rfl
  | true =>
    have h2 := listLtB_trans x y x h hb
    rw [listLtB_irrefl x] at h2
    exact h2.symm

end SortLemmas

section LexLemmas

variable {α β : Type}

theorem lexLtStep_total (lt1 : α → α → Bool) (le2 : β → β → Bool)
    (hirr : ∀ a, lt1 a a = false)
    (hconn : ∀ a b, lt1 a b = true ∨ lt1 b a = true ∨ a = b)
    (htot : ∀ x y, le2 x y = true ∨ le2 y x = true) :
    ∀ p q : α × β, lexLtStep lt1 le2 p q = true ∨ lexLtStep lt1 le2 q p = true := by
  intro p q
  unfold lexLtStep
  rcases hconn p.1 q.1 with h | h | h
  · exact Or.inl (by rw [if_pos h])
  · exact Or.inr (by rw [if_pos h])
  · rw [h]
    have hf : ¬(lt1 q.1 q.1 = true) := by simp [hirr q.1]
    rw [if_neg hf, if_neg hf, if_neg hf, if_neg hf]
    exact htot p.2 q.2

theorem lexLtStep_trans (lt1 : α → α → Bool) (le2 : β → β → Bool)
    (hirr : ∀ a, lt1 a a = false)
    (htr1 : ∀ a b c, lt1 a b = true → lt1 b c = true → lt1 a c = true)
    (hconn : ∀ a b, lt1 a b = true ∨ lt1 b a = true ∨ a = b)
    (htr2 : ∀ x y z, le2 x y = true → le2 y z = true → le2 x z = true) :
    ∀ p q r : α × β, lexLtStep lt1 le2 p q = true → lexLtStep lt1 le2 q r = true →
      lexLtStep lt1 le2 p r = true := by
  intro p q r hpq hqr
  unfold lexLtStep at hpq hqr ⊢
  by_cases h1 : lt1 p.1 q.1 = true
  · by_cases h2 : lt1 q.1 r.1 = true
    · rw [if_pos (htr1 _ _ _ h1 h2)]
    · rcases hconn q.1 r.1 with hc | hc | hc
      · exact absurd hc h2
      · rw [if_neg h2, if_pos hc] at hqr
        cases hqr
      · rw [← hc]
        rw [if_pos h1]
  · by_cases h1' : lt1 q.1 p.1 = true
    · rw [if_neg h1, if_pos h1'] at hpq
      cases hpq
    · rw [if_neg h1, if_neg h1'] at hpq
      have heq1 : p.1 = q.1 := by
        rcases hconn p.1 q.1 with h | h | h
        · exact absurd h h1
        · exact absurd h h1'
        · exact h
      by_cases h2 : lt1 q.1 r.1 = true
      · rw [heq1, if_pos h2]
      · by_cases h2' : lt1 r.1 q.1 = true
        · rw [if_neg h2, if_pos h2'] at hqr
          cases hqr
        · rw [if_neg h2, if_neg h2'] at hqr
          have heq2 : q.1 = r.1 := by
            rcases hconn q.1 r.1 with h | h | h
            · exact absurd h h2
            · exact absurd h h2'
            · exact h
          have e : p.1 = r.1 := heq1.trans heq2
          have hf : ¬(lt1 p.1 r.1 = true) := by rw [e, hirr r.1]; simp
          have hf2 : ¬(lt1 r.1 p.1 = true) := by rw [e, hirr r.1]; simp
          rw [if_neg hf, if_neg hf2]
          exact htr2 _ _ _ hpq hqr

end LexLemmas

section PyHitLeLemmas

variable {R : Type} [LinearOrderedField R]

theorem bnot_true_iff (b : Bool) : (!b) = true ↔ b = false := by
  cases b <;> simp

/-- Totality of the last-component comparison `x <= y` (as
`not (y < x)`). -/
theorem listNotLtRev_total (x y : List Char) :
    (!(listLtB y x)) = true ∨ (!(listLtB x y)) = true := by
  rcases listLtB_conn x y with h | h | h
  · exact Or.inl (by rw [bnot_true_iff, listLtB_asymm x y h])
  · exact Or.inr (by rw [bnot_true_iff, listLtB_asymm y x h])
  · exact Or.inl (by rw [bnot_true_iff, h, listLtB_irrefl])

/-- Transitivity of the last-component comparison. -/
theorem listNotLtRev_trans (x y z : List Char)
    (h1 : (!(listLtB y x)) = true) (h2 : (!(listLtB z y)) = true) :
    (!(listLtB z x)) = true := by
  rw [bnot_true_iff] at h1 h2 ⊢
  cases hc : listLtB z x with
  | false => rfl
  | true =>
    rcases listLtB_conn x y with h | h | h
    · have h3 := listLtB_trans z x y hc h
      rw [h3] at h2
      exact h2
    · rw [h] at h1
      exact h1
    · rw [h] at hc
      rw [hc] at h2
      exact h2

theorem pyHitLe_total (p q : PyHit R) : pyHitLe p q = true ∨ pyHitLe q p = true := by
  unfold pyHitLe
  apply lexLtStep_total
  · exact boolLt_irrefl
  · exact boolLt_conn
  · intro x y
    apply lexLtStep_total
    · exact listLtB_irrefl
    · exact listLtB_conn
    · intro x y
      apply lexLtStep_total
      · exact boolLt_irrefl
      · exact boolLt_conn
      · intro x y
        exact listNotLtRev_total x y

theorem pyHitLe_trans (p q r : PyHit R) (h1 : pyHitLe p q = true) (h2 : pyHitLe q r = true) :
    pyHitLe p r = true := by
  unfold pyHitLe at h1 h2 ⊢
  revert h1 h2
  apply lexLtStep_trans
  · exact boolLt_irrefl
  · exact fun a b c => boolLt_trans
  · exact boolLt_conn
  · intro x y z
    apply lexLtStep_trans
    · exact listLtB_irrefl
    · exact listLtB_trans
    · exact listLtB_conn
    · intro x y z
      apply lexLtStep_trans
      · exact boolLt_irrefl
      · exact fun a b c => boolLt_trans
      · exact boolLt_conn
      · intro x y z hxy hyz
        exact listNotLtRev_trans x y z hxy hyz

end PyHitLeLemmas

section InsertSortLemmas

variable {α : Type}

theorem insertDesc_perm (le : α → α → Bool) (x : α) :
    ∀ l : List α, (insertDesc le x l).Perm (x :: l)
  | [] => List.Perm.refl [x]
  | y :: ys => by
    unfold insertDesc
    by_cases h : le y x = true
    · rw [if_pos h]
    · rw [if_neg h]
      exact ((insertDesc_perm le x ys).cons y).trans (List.Perm.swap x y ys)

theorem sortDesc_perm (le : α → α → Bool) : ∀ l : List α, (sortDesc le l).Perm l
  | [] => List.Perm.refl []
  | x :: xs => by
    unfold sortDesc
    exact (insertDesc_perm le x (sortDesc le xs)).trans ((sortDesc_perm le xs).cons x)

theorem insertDesc_pairwise (le : α → α → Bool)
    (htot : ∀ a b, le a b = true ∨ le b a = true)
    (htr : ∀ a b c, le a b = true → le b c = true → le a c = true) (x : α) :
    ∀ l : List α, l.Pairwise (fun a b => le b a = true) →
      (insertDesc le x l).Pairwise (fun a b => le b a = true)
  | [], _ => by simp [insertDesc]
  | y :: ys, hp => by
    rcases List.pairwise_cons.mp hp with ⟨hy, hys⟩
    unfold insertDesc
    by_cases h : le y x = true
    · rw [if_pos h]
      refine List.pairwise_cons.mpr ⟨?_, hp⟩
      intro z hz
      rcases List.mem_cons.mp hz with rfl | hz
      · exact h
      · exact htr z y x (hy z hz) h
    · rw [if_neg h]
      refine List.pairwise_cons.mpr ⟨?_, insertDesc_pairwise le htot htr x ys hys⟩
      intro z hz
      have hz' := (insertDesc_perm le x ys).mem_iff.mp hz
      rcases List.mem_cons.mp hz' with rfl | hz'
      · rcases htot y z with hyx | hxy
        · exact absurd hyx h
        · exact hxy
      · exact hy z hz'

theorem sortDesc_pairwise (le : α → α → Bool)
    (htot : ∀ a b, le a b = true ∨ le b a = true)
    (htr : ∀ a b c, le a b = true → le b c = true → le a c = true) :
    ∀ l : List α, (sortDesc le l).Pairwise (fun a b => le b a = true)
  | [] => List.Pairwise.nil
  | x :: xs => by
    unfold sortDesc
    exact insertDesc_pairwise le htot htr x (sortDesc le xs) (sortDesc_pairwise le htot htr xs)

end InsertSortLemmas

end FindMotif

/-- C4 (amended): the scanner's ranking sorts the recorded hits into
non-increasing order under the full reversed tuple comparison — ties on
the score are broken by the *descending* (reversed) order of header,
then start offset, then window text, because `sort(reverse=True)`
reverses the entire tuple comparison — and then keeps the first K
entries.  Stated as: the result is the K-prefix of a permutation of the
recorded hits that is pairwise non-increasing under the Python tuple
order `pyHitLe`. -/
theorem c4_sorted_truncated {R : Type} [LinearOrderedField R]
    (scores : List (FindMotif.PyHit R)) (k : Nat) :
    ∃ l : List (FindMotif.PyHit R), scores.Perm l ∧
      l.Pairwise (fun a b => FindMotif.pyHitLe b a = true) ∧
      FindMotif.sortTruncate scores k = l.take k :=
  ⟨FindMotif.sortDesc FindMotif.pyHitLe scores,
    (FindMotif.sortDesc_perm FindMotif.pyHitLe scores).symm,
    FindMotif.sortDesc_pairwise FindMotif.pyHitLe
      (fun a b => FindMotif.pyHitLe_total a b)
      (fun a b c => FindMotif.pyHitLe_trans a b c) scores,
    rfl⟩

namespace FindMotif

section CountLemmas

theorem bumpCount_apply (c : Char × Nat → Nat) (e : Nat × Char) (s : Char) (p : Nat) :
    bumpCount c e (s, p) = if (s, p) = (e.2, e.1) then c (s, p) + 1 else c (s, p) :=
  rfl

/-- The enumerated fold of one motif, entered at index `k`, bumps the
count of `(s, p)` exactly when the motif reads `s` at (absolute)
position `p ≥ k`. -/
theorem foldl_bumpCount_enumFrom (s : Char) (p : Nat) :
    ∀ (m : List Char) (k : Nat) (c : Char × Nat → Nat),
      ((List.enumFrom k m).foldl bumpCount c) (s, p) =
        c (s, p) + (if k ≤ p ∧ m.get? (p - k) = some s then 1 else 0) := by
  intro m
  induction m with
  | nil =>
    intro k c
    simp [List.enumFrom]
  | cons x xs ih =>
    intro k c
    have hstep : List.enumFrom k (x :: xs) = (k, x) :: List.enumFrom (k + 1) xs := rfl
    rw [hstep, List.foldl_cons, ih (k + 1), bumpCount_apply]
    by_cases hpk : p = k
    · subst hpk
      rw [Nat.sub_self]
      by_cases hsx : s = x
      · subst hsx
        rw [if_pos (by rfl)]
        have h1 : ¬(p + 1 ≤ p ∧ xs.get? (p - (p + 1)) = some s) := fun h => by omega
        rw [if_neg h1]
        have h2 : p ≤ p ∧ (s :: xs).get? 0 = some s := ⟨le_refl p, rfl⟩
        rw [if_pos h2]
      · have h1 : ¬((s, p) = (x, p)) := by simp [hsx]
        rw [if_neg h1]
        have h2 : ¬(p + 1 ≤ p ∧ xs.get? (p - (p + 1)) = some s) := fun h => by omega
        rw [if_neg h2]
        have h3 : ¬(p ≤ p ∧ (x :: xs).get? 0 = some s) := by
          intro h
          have h4 := h.2
          rw [List.get?_cons_zero] at h4
          injection h4 with h4
          exact hsx h4.symm
        rw [if_neg h3]
    · have h1 : ¬((s, p) = (x, k)) := by simp [Prod.ext_iff, hpk]
      rw [if_neg h1]
      by_cases hkp : k ≤ p
      · have hk1 : k + 1 ≤ p := by omega
        have hsub : p - k = (p - (k + 1)) + 1 := by omega
        rw [hsub, List.get?_cons_succ]
        by_cases hg : xs.get? (p - (k + 1)) = some s
        · rw [if_pos ⟨hk1, hg⟩, if_pos ⟨hkp, hg⟩]
        · rw [if_neg (fun h => hg h.2), if_neg (fun h => hg h.2)]
      · have h2 : ¬(k + 1 ≤ p ∧ xs.get? (p - (k + 1)) = some s) := fun h => by omega
        have h3 : ¬(k ≤ p ∧ (x :: xs).get? (p - k) = some s) := fun h => hkp h.1
        rw [if_neg h2, if_neg h3]

/-- One motif's pass over the counts dict increments exactly the key of
the symbol the motif reads at each position. -/
theorem addMotifCounts_apply (c : Char × Nat → Nat) (m : List Char) (s : Char) (p : Nat) :
    addMotifCounts c m (s, p) = c (s, p) + (if m.get? p = some s then 1 else 0) := by
  unfold addMotifCounts
  have henum : m.enum = List.enumFrom 0 m := rfl
  rw [henum, foldl_bumpCount_enumFrom s p m 0 c, Nat.sub_zero]
  by_cases hg : m.get? p = some s
  · rw [if_pos ⟨Nat.zero_le p, hg⟩, if_pos hg]
  · rw [if_neg (fun h => hg h.2), if_neg hg]

/-- The raw counts dict counts, for each `(symbol, position)`, the number
of training motifs reading that symbol at that position. -/
theorem rawCounts_apply (motifs : List (List Char)) (s : Char) (p : Nat) :
    rawCounts motifs (s, p) =
      (motifs.map (fun m => if m.get? p = some s then (1 : Nat) else 0)).sum := by
  unfold rawCounts
  suffices h : ∀ (c : Char × Nat → Nat),
      (motifs.foldl addMotifCounts c) (s, p) =
        c (s, p) + (motifs.map (fun m => if m.get? p = some s then (1 : Nat) else 0)).sum by
    rw [h (fun _ => 0)]
    omega
  induction motifs with
  | nil => intro c; simp
  | cons m ms ih =>
    intro c
    rw [List.foldl_cons, ih (addMotifCounts c m), addMotifCounts_apply,
      List.map_cons, List.sum_cons]
    omega

/-- The raw count cast to the reals, as a sum of indicators. -/
theorem rawCounts_cast (motifs : List (List Char)) (s : Char) (p : Nat) :
    ((rawCounts motifs (s, p) : Nat) : ℝ) =
      (motifs.map (fun m => if m.get? p = some s then (1 : ℝ) else 0)).sum := by
  rw [rawCounts_apply]
  induction motifs with
  | nil => simp
  | cons m ms ih =>
    rw [List.map_cons, List.sum_cons, List.map_cons, List.sum_cons, Nat.cast_add, ih]
    by_cases hg : m.get? p = some s
    · rw [if_pos hg, if_pos hg, Nat.cast_one]
    · rw [if_neg hg, if_neg hg, Nat.cast_zero]

end CountLemmas

section SumLemmas

variable {α : Type} {M : Type} [AddCommMonoid M]

theorem sum_map_add (l : List α) (f g : α → M) :
    (l.map (fun x => f x + g x)).sum = (l.map f).sum + (l.map g).sum := by
  induction l with
  | nil => simp
  | cons x xs ih =>
    simp only [List.map_cons, List.sum_cons, ih]
    abel

theorem sum_map_zero_of_not_mem {β : Type} [DecidableEq β] (c : β) :
    ∀ l : List β, c ∉ l → ((l.map (fun s => if c = s then (1 : ℝ) else 0)).sum = 0)
  | [], _ => by simp
  | b :: bs, h => by
    have hcb : ¬(c = b) := fun e => h (e ▸ List.mem_cons_self b bs)
    have hbs : c ∉ bs := fun e => h (List.mem_cons_of_mem b e)
    simp only [List.map_cons, List.sum_cons, if_neg hcb,
      sum_map_zero_of_not_mem c bs hbs, zero_add]

/-- Over a duplicate-free list containing `c`, the indicator of `c` sums
to 1. -/
theorem sum_map_indicator {β : Type} [DecidableEq β] (c : β) :
    ∀ l : List β, l.Nodup → c ∈ l →
      ((l.map (fun s => if c = s then (1 : ℝ) else 0)).sum = 1)
  | [], _, hm => absurd hm (List.not_mem_nil c)
  | b :: bs, hnd, hm => by
    rcases List.pairwise_cons.mp hnd with ⟨hb, hbs⟩
    by_cases hcb : c = b
    · subst hcb
      have hnot : c ∉ bs := fun hmem => (hb c hmem) rfl
      simp only [List.map_cons, List.sum_cons,
        sum_map_zero_of_not_mem c bs hnot, add_zero]
      simp
    · have hmem : c ∈ bs := by
        rcases List.mem_cons.mp hm with h | h
        · exact absurd h hcb
        · exact h
      simp only [List.map_cons, List.sum_cons, if_neg hcb, zero_add,
        sum_map_indicator c bs hbs hmem]

end SumLemmas

section QSumLemmas

/-- Summed over a duplicate-free alphabet covering every training symbol
at position `p`, the raw counts at `p` add up to the training-set size. -/
theorem sum_rawCounts_eq_length (alphabet : List Char) (hnd : alphabet.Nodup) (p : Nat) :
    ∀ motifs : List (List Char),
      (∀ m ∈ motifs, ∃ c ∈ alphabet, m.get? p = some c) →
      ((alphabet.map (fun s => ((rawCounts motifs (s, p) : Nat) : ℝ))).sum =
        (motifs.length : ℝ))
  | [], _ => by
    have hz : (alphabet.map (fun s => ((rawCounts [] (s, p) : Nat) : ℝ))) =
        alphabet.map (fun _ => (0 : ℝ)) := by
      apply List.map_congr_left
      intro s _
      rw [rawCounts_cast]
      simp
    rw [hz]
    simp
  | m :: ms, hmem => by
    have hms : ∀ m' ∈ ms, ∃ c ∈ alphabet, m'.get? p = some c :=
      fun m' hm' => hmem m' (List.mem_cons_of_mem m hm')
    obtain ⟨c, hc, hgc⟩ := hmem m (List.mem_cons_self m ms)
    have hsplit :
        (alphabet.map (fun s => ((rawCounts (m :: ms) (s, p) : Nat) : ℝ))) =
        (alphabet.map
          (fun s => (if c = s then (1 : ℝ) else 0) + ((rawCounts ms (s, p) : Nat) : ℝ))) := by
      apply List.map_congr_left
      intro s _
      rw [rawCounts_cast, List.map_cons, List.sum_cons, ← rawCounts_cast]
      congr 1
      by_cases hg : m.get? p = some s
      · have hcs : c = s := by
          rw [hgc] at hg
          injection hg
        rw [if_pos hg, if_pos hcs]
      · have hcs : ¬(c = s) := by
          intro e
          subst e
          exact hg hgc
        rw [if_neg hg, if_neg hcs]
    rw [hsplit, sum_map_add, sum_rawCounts_eq_length alphabet hnd p ms hms,
      sum_map_indicator c alphabet hnd hc, List.length_cons]
    push_cast
    ring

theorem sum_map_div (l : List Char) (f : Char → ℝ) (d : ℝ) :
    (l.map (fun x => f x / d)).sum = (l.map f).sum / d := by
  induction l with
  | nil => simp
  | cons x xs ih => simp [ih, add_div]

theorem sum_map_mul_left (l : List Char) (f : Char → ℝ) (b : ℝ) :
    (l.map (fun x => b * f x)).sum = b * (l.map f).sum := by
  induction l with
  | nil => simp
  | cons x xs ih => simp [ih, mul_add]

end QSumLemmas

end FindMotif

/-- C5: for any duplicate-free background table summing to 1 over its
alphabet, any training set whose symbols at position `p` all lie in the
alphabet, and any pseudocount constant `B ≥ 0` (with at least one
training motif, as the builder requires), the pseudocount-adjusted
frequencies `q[s,p] = (count[s,p] + B*background[s]) / (N + B)` sum to
exactly 1 over the alphabet, in exact real arithmetic. -/
theorem c5_q_sums_to_one (alphabet : List Char) (bg : Char → ℝ)
    (motifs : List (List Char)) (B : ℝ) (p : Nat)
    (hnd : alphabet.Nodup)
    (hbg : (alphabet.map bg).sum = 1)
    (hmem : ∀ m ∈ motifs, ∃ c ∈ alphabet, m.get? p = some c)
    (hN : 1 ≤ motifs.length) (hB : 0 ≤ B) :
    (alphabet.map
      (fun s => FindMotif.qValue (FindMotif.rawCounts motifs) bg motifs.length B s p)).sum = 1 := by
  have hpos : (0 : ℝ) < (motifs.length : ℝ) + B := by
    have h1 : (1 : ℝ) ≤ (motifs.length : ℝ) := by
      exact_mod_cast hN
    linarith
  have hrw :
      (alphabet.map
        (fun s => FindMotif.qValue (FindMotif.rawCounts motifs) bg motifs.length B s p)) =
      (alphabet.map
        (fun s => (((FindMotif.rawCounts motifs (s, p) : Nat) : ℝ) + B * bg s) /
          ((motifs.length : ℝ) + B))) := by
    apply List.map_congr_left
    intro s _
    rfl
  rw [hrw, FindMotif.sum_map_div, FindMotif.sum_map_add,
    FindMotif.sum_rawCounts_eq_length alphabet hnd p motifs hmem,
    FindMotif.sum_map_mul_left, hbg, mul_one]
  exact div_self (ne_of_gt hpos)

/-- Witness for C5 at a concrete input: alphabet `A, T` with uniform
background 1/2, two width-1 motifs `A` and `T`, `B = 0`, position 0. -/
theorem c5_witness :
    ((['A', 'T'].map
      (fun s => FindMotif.qValue (FindMotif.rawCounts [['A'], ['T']])
        (fun c => if c = 'A' then (1 / 2 : ℝ) else if c = 'T' then 1 / 2 else 0)
        ([['A'], ['T']] : List (List Char)).length 0 s 0)).sum = 1) :=
  c5_q_sums_to_one ['A', 'T']
    (fun c => if c = 'A' then (1 / 2 : ℝ) else if c = 'T' then 1 / 2 else 0)
    [['A'], ['T']] 0 0
    (by decide)
    (by norm_num)
    (by
      intro m hm
      rcases List.mem_cons.mp hm with rfl | hm
      · exact ⟨'A', by decide, rfl⟩
      · rcases List.mem_cons.mp hm with rfl | hm
        · exact ⟨'T', by decide, rfl⟩
        · exact absurd hm (List.not_mem_nil m))
    (by decide)
    (le_refl 0)

namespace FindMotif

section InfoLemmas

variable {R : Type} [LinearOrderedField R]

/-- When every alphabet symbol has a `q` entry at `position`, the symbol
loop succeeds and accumulates `Σ_s q[s,p] * log2(q[s,p])`. -/
theorem infoLoop_ok (log2 : R → R) (q : Char × Nat → Option R) (position : Nat) :
    ∀ (alphabet : List Char) (acc : R),
      (∀ s ∈ alphabet, (q (s, position)).isSome) →
      infoLoop log2 q position alphabet acc =
        Except.ok (acc + (alphabet.map
          (fun s => ((q (s, position)).getD 0) * log2 ((q (s, position)).getD 0))).sum) := by
  intro alphabet
  induction alphabet with
  | nil =>
    intro acc _
    simp [infoLoop]
  | cons s ss ih =>
    intro acc hq
    obtain ⟨v, hv⟩ := Option.isSome_iff_exists.mp (hq s (List.mem_cons_self s ss))
    have hgd : (q (s, position)).getD 0 = v := by rw [hv]; rfl
    have hstep : infoLoop log2 q position (s :: ss) acc =
        infoLoop log2 q position ss (acc + v * log2 v) := by
      simp [infoLoop, hv]
    rw [hstep, ih (acc + v * log2 v) (fun x hx => hq x (List.mem_cons_of_mem s hx)),
      List.map_cons, List.sum_cons, hgd]
    rw [add_assoc]

/-- `informationAt` computes `infoValue` when all keys are present. -/
theorem informationAt_ok (log2 : R → R) (alphabet : List Char)
    (q : Char × Nat → Option R) (position : Nat)
    (hq : ∀ s ∈ alphabet, (q (s, position)).isSome) :
    informationAt log2 alphabet q position = Except.ok (infoValue log2 alphabet q position) :=
  infoLoop_ok log2 q position alphabet 2 hq

/-- Membership characterization of the position loop of
`_GetInformational`: the output extends the prior list with exactly the
positions whose information value strictly exceeds 5/4. -/
theorem getInfoLoop_mem (log2 : R → R) (alphabet : List Char) (q : Char × Nat → Option R) :
    ∀ (positions : List Nat) (acc : List Nat),
      (∀ p ∈ positions, ∀ s ∈ alphabet, (q (s, p)).isSome) →
      ∃ out, getInfoLoop log2 alphabet q positions acc = Except.ok out ∧
        ∀ x, (x ∈ out ↔ x ∈ acc ∨
          ∃ p ∈ positions, x = p ∧ (5 / 4 : R) < infoValue log2 alphabet q p) := by
  intro positions
  induction positions with
  | nil =>
    intro acc _
    refine ⟨acc, rfl, fun x => ?_⟩
    simp
  | cons p ps ih =>
    intro acc hq
    have hinfo := informationAt_ok log2 alphabet q p (hq p (List.mem_cons_self p ps))
    have hstep : getInfoLoop log2 alphabet q (p :: ps) acc =
        if (5 / 4 : R) < infoValue log2 alphabet q p then
          getInfoLoop log2 alphabet q ps (acc ++ [p])
        else
          getInfoLoop log2 alphabet q ps acc := by
      simp [getInfoLoop, hinfo]
    have hq' : ∀ p' ∈ ps, ∀ s ∈ alphabet, (q (s, p')).isSome :=
      fun p' hp' => hq p' (List.mem_cons_of_mem p hp')
    by_cases hlt : (5 / 4 : R) < infoValue log2 alphabet q p
    · obtain ⟨out, hout, hmem⟩ := ih (acc ++ [p]) hq'
      refine ⟨out, by rw [hstep, if_pos hlt]; exact hout, fun x => ?_⟩
      rw [hmem x]
      constructor
      · rintro (hx | ⟨p', hp', rfl, hc⟩)
        · rcases List.mem_append.mp hx with hx | hx
          · exact Or.inl hx
          · rcases List.mem_singleton.mp hx with rfl
            exact Or.inr ⟨x, List.mem_cons_self x ps, rfl, hlt⟩
        · exact Or.inr ⟨x, List.mem_cons_of_mem p hp', rfl, hc⟩
      · rintro (hx | ⟨p', hp', rfl, hc⟩)
        · exact Or.inl (List.mem_append.mpr (Or.inl hx))
        · rcases List.mem_cons.mp hp' with heq | hp'
          · subst heq
            exact Or.inl (List.mem_append.mpr (Or.inr (List.mem_singleton.mpr rfl)))
          · exact Or.inr ⟨x, hp', rfl, hc⟩
    · obtain ⟨out, hout, hmem⟩ := ih acc hq'
      refine ⟨out, by rw [hstep, if_neg hlt]; exact hout, fun x => ?_⟩
      rw [hmem x]
      constructor
      · rintro (hx | ⟨p', hp', rfl, hc⟩)
        · exact Or.inl hx
        · exact Or.inr ⟨x, List.mem_cons_of_mem p hp', rfl, hc⟩
      · rintro (hx | ⟨p', hp', rfl, hc⟩)
        · exact Or.inl hx
        · rcases List.mem_cons.mp hp' with heq | hp'
          · exact absurd (heq ▸ hc) hlt
          · exact Or.inr ⟨x, hp', rfl, hc⟩

end InfoLemmas

end FindMotif

/-- C6: for every model built over the program's (only constructible)
4-symbol background alphabet, a position `p` belongs to the informational
position set produced by `_GetInformational` (first build: empty prior
list) exactly when
`log2(|alphabet|) + Σ_s q[s,p] * log2(q[s,p]) > 1.25` — the code's
hardwired constant 2 equals `log2 4` for this alphabet.  The positivity
hypothesis `hpos` restricts the statement to models where `math.log2`
is defined (on a zero or negative `q` the Python code would raise
`ValueError` instead). -/
theorem c6_informational_iff (q : Char × Nat → Option ℝ) (L p : Nat) (out : List Nat)
    (hq : ∀ p' < L, ∀ s ∈ FindMotif.defaultAlphabet, (q (s, p')).isSome)
    (hpos : ∀ p' < L, ∀ s ∈ FindMotif.defaultAlphabet, (0 : ℝ) < (q (s, p')).getD 0)
    (hok : FindMotif.getInformational (fun x => Real.logb 2 x) FindMotif.defaultAlphabet q L [] =
      Except.ok out) :
    (p ∈ out ↔ p < L ∧
      (5 / 4 : ℝ) < Real.logb 2 ((FindMotif.defaultAlphabet.length : ℝ)) +
        (FindMotif.defaultAlphabet.map
          (fun s => ((q (s, p)).getD 0) * Real.logb 2 ((q (s, p)).getD 0))).sum) := by
  obtain ⟨out', hout', hmem⟩ :=
    FindMotif.getInfoLoop_mem (fun x => Real.logb 2 x) FindMotif.defaultAlphabet q
      (List.range L) []
      (fun p' hp' => hq p' (List.mem_range.mp hp'))
  unfold FindMotif.getInformational at hok
  rw [hout'] at hok
  injection hok with hok
  subst hok
  rw [hmem p]
  have hlen : ((FindMotif.defaultAlphabet.length : ℝ)) = 4 := by
    norm_num [FindMotif.defaultAlphabet]
  have hlog4 : Real.logb 2 ((FindMotif.defaultAlphabet.length : ℝ)) = 2 := by
    rw [hlen]
    have h4 : (4 : ℝ) = 2 ^ (2 : ℕ) := by norm_num
    rw [h4, Real.logb_pow, Real.logb_self_eq_one (by norm_num)]
    norm_num
  rw [hlog4]
  constructor
  · rintro (hx | ⟨p', hp', rfl, hc⟩)
    · exact absurd hx (List.not_mem_nil p)
    · refine ⟨List.mem_range.mp hp', ?_⟩
      unfold FindMotif.infoValue at hc
      linarith
  · rintro ⟨hpL, hc⟩
    refine Or.inr ⟨p, List.mem_range.mpr hpL, rfl, ?_⟩
    unfold FindMotif.infoValue
    linarith

/-- Witness for C6 at a concrete input: the 4-symbol default alphabet,
width 1, all `q` values 1, so the information value is exactly 2 and
position 0 qualifies. -/
theorem c6_witness :
    ((0 : Nat) ∈ ([0] : List Nat) ↔ 0 < 1 ∧
      (5 / 4 : ℝ) < Real.logb 2 ((FindMotif.defaultAlphabet.length : ℝ)) +
        (FindMotif.defaultAlphabet.map (fun _ => (1 : ℝ) * Real.logb 2 1)).sum) :=
  c6_informational_iff (fun _ => some 1) 1 0 [0]
    (fun _ _ _ _ => rfl)
    (fun _ _ _ _ => by norm_num)
    (by
      have h := FindMotif.informationAt_ok (fun x => Real.logb 2 x) FindMotif.defaultAlphabet
        (fun _ : Char × Nat => some (1 : ℝ)) 0 (fun _ _ => rfl)
      have hval : FindMotif.infoValue (fun x => Real.logb 2 x) FindMotif.defaultAlphabet
          (fun _ : Char × Nat => some (1 : ℝ)) 0 = 2 := by
        unfold FindMotif.infoValue
        norm_num [FindMotif.defaultAlphabet, Real.logb_one]
      rw [hval] at h
      show FindMotif.getInfoLoop (fun x => Real.logb 2 x) FindMotif.defaultAlphabet
        (fun _ : Char × Nat => some (1 : ℝ)) (List.range 1) [] = Except.ok [0]
      have hr : List.range 1 = [0] := rfl
      rw [hr]
      have hstep : FindMotif.getInfoLoop (fun x => Real.logb 2 x) FindMotif.defaultAlphabet
          (fun _ : Char × Nat => some (1 : ℝ)) [0] [] =
          if (5 / 4 : ℝ) < 2 then
            FindMotif.getInfoLoop (fun x => Real.logb 2 x) FindMotif.defaultAlphabet
              (fun _ : Char × Nat => some (1 : ℝ)) [] ([] ++ [0])
          else
            FindMotif.getInfoLoop (fun x => Real.logb 2 x) FindMotif.defaultAlphabet
              (fun _ : Char × Nat => some (1 : ℝ)) [] [] := by
        simp [FindMotif.getInfoLoop, h]
      rw [hstep, if_pos (by norm_num)]
      rfl)

namespace FindMotif

section C8Lemmas

/-- Unfolding `MakePSSM`: the informational list of the produced state is
the `_GetInformational` output over the freshly written `q` dict, and all
other model inputs are carried over unchanged. -/
theorem makePSSM_ok_informational {R : Type} [LinearOrderedField R] (log log2 : R → R)
    (st : FMState R) (B : R) (out : List Nat)
    (h : getInformational log2 (st.bg_freq.map Prod.fst)
      (fun sp =>
        if sp.1 ∈ st.bg_freq.map Prod.fst ∧ sp.2 < st.motif_len then
          some (qValue (rawCounts st.motif_sequences)
            (fun s => ((st.bg_freq.lookup s).getD 0)) st.N B sp.1 sp.2)
        else st.q sp)
      st.motif_len st.informational = Except.ok out) :
    ∃ st', makePSSM log log2 st B = Except.ok st' ∧
      st'.informational = out ∧
      st'.bg_freq = st.bg_freq ∧
      st'.motif_sequences = st.motif_sequences ∧
      st'.N = st.N ∧
      st'.motif_len = st.motif_len ∧
      st'.q = (fun sp =>
        if sp.1 ∈ st.bg_freq.map Prod.fst ∧ sp.2 < st.motif_len then
          some (qValue (rawCounts st.motif_sequences)
            (fun s => ((st.bg_freq.lookup s).getD 0)) st.N B sp.1 sp.2)
        else st.q sp) := by
  refine ⟨⟨st.motif_input, st.sequence_file, st.bg_freq, st.log_p,
    (fun sp =>
      if sp.1 ∈ st.bg_freq.map Prod.fst ∧ sp.2 < st.motif_len then
        some (log (qValue (rawCounts st.motif_sequences)
          (fun s => ((st.bg_freq.lookup s).getD 0)) st.N B sp.1 sp.2))
      else st.log_q sp),
    (fun sp =>
      if sp.1 ∈ st.bg_freq.map Prod.fst ∧ sp.2 < st.motif_len then
        some (qValue (rawCounts st.motif_sequences)
          (fun s => ((st.bg_freq.lookup s).getD 0)) st.N B sp.1 sp.2)
      else st.q sp),
    st.N, st.motif_len, st.motif_sequences, out⟩, ?_, rfl, rfl, rfl, rfl, rfl, rfl⟩
  simp only [makePSSM]
  rw [h]
  rfl

/-- `logb 2` of the dyadic frequencies appearing in the concrete
training set `motifsC8`. -/
theorem logb2_eight : Real.logb 2 (8 : ℝ) = 3 := by
  have h : (8 : ℝ) = 2 ^ (3 : ℕ) := by norm_num
  rw [h, Real.logb_pow, Real.logb_self_eq_one (by norm_num)]
  norm_num

theorem logb2_seven_eighths : Real.logb 2 ((7 : ℝ) / 8) = Real.logb 2 7 - 3 := by
  rw [Real.logb_div (by norm_num) (by norm_num), logb2_eight]

theorem logb2_sixteenth : Real.logb 2 ((1 : ℝ) / 16) = -4 := by
  have h : ((1 : ℝ) / 16) = ((16 : ℝ))⁻¹ := by norm_num
  have h16 : Real.logb 2 (16 : ℝ) = 4 := by
    have h2 : (16 : ℝ) = 2 ^ (4 : ℕ) := by norm_num
    rw [h2, Real.logb_pow, Real.logb_self_eq_one (by norm_num)]
    norm_num
  rw [h, Real.logb_inv, h16]

theorem logb2_thirtysecond : Real.logb 2 ((1 : ℝ) / 32) = -5 := by
  have h : ((1 : ℝ) / 32) = ((32 : ℝ))⁻¹ := by norm_num
  have h32 : Real.logb 2 (32 : ℝ) = 5 := by
    have h2 : (32 : ℝ) = 2 ^ (5 : ℕ) := by norm_num
    rw [h2, Real.logb_pow, Real.logb_self_eq_one (by norm_num)]
    norm_num
  rw [h, Real.logb_inv, h32]

/-- `log2 7 > 39/14`, i.e. `7^14 > 2^39`. -/
theorem logb2_seven_lower : (39 : ℝ) / 14 < Real.logb 2 7 := by
  have hlt : ((2 : ℝ) ^ (39 : ℕ)) < ((7 : ℝ) ^ (14 : ℕ)) := by norm_num
  have h := Real.logb_lt_logb (b := 2) (by norm_num) (by positivity) hlt
  rw [Real.logb_pow, Real.logb_pow, Real.logb_self_eq_one (by norm_num)] at h
  push_cast at h
  linarith

/-- `_GetInformational` over the model of `motifsC8` (adjusted
frequencies 7/8, 1/16, 1/32, 1/32 at the single position): position 0 is
informational — its information value `2 + Σ q log2 q ≈ 1.2687` exceeds
1.25 — so the position loop appends 0 to whatever prior list it is
handed. -/
theorem c8_getInfo (q : Char × Nat → Option ℝ)
    (hA : q ('A', 0) = some ((7 : ℝ) / 8)) (hT : q ('T', 0) = some ((1 : ℝ) / 16))
    (hG : q ('G', 0) = some ((1 : ℝ) / 32)) (hC : q ('C', 0) = some ((1 : ℝ) / 32))
    (prior : List Nat) :
    getInformational (fun x => Real.logb 2 x) defaultAlphabet q 1 prior =
      Except.ok (prior ++ [0]) := by
  have hkeys : ∀ s ∈ defaultAlphabet, (q (s, 0)).isSome := by
    intro s hs
    rcases List.mem_cons.mp hs with rfl | hs
    · rw [hA]; rfl
    · rcases List.mem_cons.mp hs with rfl | hs
      · rw [hT]; rfl
      · rcases List.mem_cons.mp hs with rfl | hs
        · rw [hG]; rfl
        · rcases List.mem_cons.mp hs with rfl | hs
          · rw [hC]; rfl
          · exact absurd hs (List.not_mem_nil s)
  have hinfo := informationAt_ok (fun x => Real.logb 2 x) defaultAlphabet q 0 hkeys
  have hval : infoValue (fun x => Real.logb 2 x) defaultAlphabet q 0 =
      2 + ((7 : ℝ) / 8 * Real.logb 2 ((7 : ℝ) / 8) +
        ((1 : ℝ) / 16 * Real.logb 2 ((1 : ℝ) / 16) +
          ((1 : ℝ) / 32 * Real.logb 2 ((1 : ℝ) / 32) +
            ((1 : ℝ) / 32 * Real.logb 2 ((1 : ℝ) / 32) + 0)))) := by
    unfold infoValue defaultAlphabet
    rw [List.map_cons, List.map_cons, List.map_cons, List.map_cons, List.map_nil,
      List.sum_cons, List.sum_cons, List.sum_cons, List.sum_cons, List.sum_nil,
      hA, hT, hG, hC]
    rfl
  have hbound : (5 / 4 : ℝ) < infoValue (fun x => Real.logb 2 x) defaultAlphabet q 0 := by
    rw [hval, logb2_seven_eighths, logb2_sixteenth, logb2_thirtysecond]
    have h7 := logb2_seven_lower
    nlinarith [h7]
  unfold getInformational
  have hr : List.range 1 = [0] := rfl
  rw [hr]
  have hstep : getInfoLoop (fun x => Real.logb 2 x) defaultAlphabet q [0] prior =
      if (5 / 4 : ℝ) < infoValue (fun x => Real.logb 2 x) defaultAlphabet q 0 then
        getInfoLoop (fun x => Real.logb 2 x) defaultAlphabet q [] (prior ++ [0])
      else
        getInfoLoop (fun x => Real.logb 2 x) defaultAlphabet q [] prior := by
    simp [getInfoLoop, hinfo]
  rw [hstep, if_pos hbound]
  rfl

end C8Lemmas

end FindMotif

namespace FindMotif

/-- The freshly written `q` dict entry of `MakePSSM` at an alphabet
symbol, whatever dict it was overwriting. -/
theorem c8_point (q0 : Char × Nat → Option ℝ) (s : Char) (v : ℝ)
    (hs : s ∈ (defaultBgFreq ℝ).map Prod.fst)
    (hv : qValue (rawCounts motifsC8)
      (fun c => (((defaultBgFreq ℝ).lookup c).getD 0)) 32 0 s 0 = v) :
    (if s ∈ (defaultBgFreq ℝ).map Prod.fst ∧ (0 : Nat) < 1 then
      some (qValue (rawCounts motifsC8)
        (fun c => (((defaultBgFreq ℝ).lookup c).getD 0)) 32 0 s 0)
    else q0 (s, 0)) = some v := by
  rw [if_pos ⟨hs, Nat.zero_lt_one⟩, hv]

end FindMotif

/-- C8: calling `MakePSSM` a second time on the same object is *not* the
identity on the model: `_GetInformational` appends to the existing
`self.informational` list (it initializes `self.goodlist` instead of
clearing it), so after the second build the informational list holds
every position twice.  Evaluated on the post-`GetMotif` state for the
training set `motifsC8` (N = 32, width 1, default background) with
`B = 0`: the first build yields informational `[0]`, the second `[0, 0]`.
(`q`, `log_q` and `log_p` are rewritten with identical values, as the
claim says; only the informational list differs.) -/
theorem c8_double_build_duplicates_informational :
    (FindMotif.makePSSM Real.log (fun x => Real.logb 2 x)
        ⟨"71NpNtSm.txt", "AnabaenaChromosome.nt", FindMotif.defaultBgFreq ℝ,
          fun s => ((FindMotif.defaultBgFreq ℝ).lookup s).map Real.log,
          fun _ => none, fun _ => none, 32, 1, FindMotif.motifsC8, []⟩ 0).map
      FindMotif.FMState.informational = Except.ok [0] ∧
    ((FindMotif.makePSSM Real.log (fun x => Real.logb 2 x)
        ⟨"71NpNtSm.txt", "AnabaenaChromosome.nt", FindMotif.defaultBgFreq ℝ,
          fun s => ((FindMotif.defaultBgFreq ℝ).lookup s).map Real.log,
          fun _ => none, fun _ => none, 32, 1, FindMotif.motifsC8, []⟩ 0).bind
      (fun st1 => FindMotif.makePSSM Real.log (fun x => Real.logb 2 x) st1 0)).map
      FindMotif.FMState.informational = Except.ok [0, 0] := by
  have hcA : FindMotif.rawCounts FindMotif.motifsC8 ('A', 0) = 28 := by decide
  have hcT : FindMotif.rawCounts FindMotif.motifsC8 ('T', 0) = 2 := by decide
  have hcG : FindMotif.rawCounts FindMotif.motifsC8 ('G', 0) = 1 := by decide
  have hcC : FindMotif.rawCounts FindMotif.motifsC8 ('C', 0) = 1 := by decide
  have hqA : FindMotif.qValue (FindMotif.rawCounts FindMotif.motifsC8)
      (fun c => (((FindMotif.defaultBgFreq ℝ).lookup c).getD 0)) 32 0 'A' 0 = 7 / 8 := by
    unfold FindMotif.qValue
    rw [hcA]
    norm_num
  have hqT : FindMotif.qValue (FindMotif.rawCounts FindMotif.motifsC8)
      (fun c => (((FindMotif.defaultBgFreq ℝ).lookup c).getD 0)) 32 0 'T' 0 = 1 / 16 := by
    unfold FindMotif.qValue
    rw [hcT]
    norm_num
  have hqG : FindMotif.qValue (FindMotif.rawCounts FindMotif.motifsC8)
      (fun c => (((FindMotif.defaultBgFreq ℝ).lookup c).getD 0)) 32 0 'G' 0 = 1 / 32 := by
    unfold FindMotif.qValue
    rw [hcG]
    norm_num
  have hqC : FindMotif.qValue (FindMotif.rawCounts FindMotif.motifsC8)
      (fun c => (((FindMotif.defaultBgFreq ℝ).lookup c).getD 0)) 32 0 'C' 0 = 1 / 32 := by
    unfold FindMotif.qValue
    rw [hcC]
    norm_num
  obtain ⟨st1, hmk1, hinf1, hbg1, hmot1, hN1, hlen1, hq1⟩ :=
    FindMotif.makePSSM_ok_informational Real.log (fun x => Real.logb 2 x)
      ⟨"71NpNtSm.txt", "AnabaenaChromosome.nt", FindMotif.defaultBgFreq ℝ,
        fun s => ((FindMotif.defaultBgFreq ℝ).lookup s).map Real.log,
        fun _ => none, fun _ => none, 32, 1, FindMotif.motifsC8, []⟩ 0 [0]
      (FindMotif.c8_getInfo _
        (FindMotif.c8_point _ 'A' (7 / 8) (by decide) hqA)
        (FindMotif.c8_point _ 'T' (1 / 16) (by decide) hqT)
        (FindMotif.c8_point _ 'G' (1 / 32) (by decide) hqG)
        (FindMotif.c8_point _ 'C' (1 / 32) (by decide) hqC) [])
  obtain ⟨st2, hmk2, hinf2, _, _, _, _, _⟩ :=
    FindMotif.makePSSM_ok_informational Real.log (fun x => Real.logb 2 x) st1 0 [0, 0]
      (by
        simp only [hbg1, hmot1, hN1, hlen1, hinf1]
        exact FindMotif.c8_getInfo _
          (FindMotif.c8_point st1.q 'A' (7 / 8) (by decide) hqA)
          (FindMotif.c8_point st1.q 'T' (1 / 16) (by decide) hqT)
          (FindMotif.c8_point st1.q 'G' (1 / 32) (by decide) hqG)
          (FindMotif.c8_point st1.q 'C' (1 / 32) (by decide) hqC) [0])
  constructor
  · rw [hmk1]
    simp [Except.map, hinf1]
  · rw [hmk1]
    simp only [Except.bind]
    rw [hmk2]
    simp [Except.map, hinf2]
